import Mathlib

/-!
# Chat-message stream decoder (`api_chat_stream.go`)

A shallow embedding of `chatMessagesStreamHandle`: the loop that reads the
response body line by line, keeps the `data:` lines, decodes each payload and
sends the outcome on the stream channel.

* Bytes are natural numbers; a body is the bytes the reader delivers followed
  by the error that ends it (`io.EOF` or a transport error). A read that
  never returns is not among these bodies, and nothing below speaks of it.
* `json.Unmarshal` belongs to the Go standard library; the handler takes the
  decoder as a parameter, so every theorem holds for every decoder.
* The observable behaviour of one run is the list of its effects in order:
  channel sends, a send the consumer never receives, and the two deferred
  closes.
-/

namespace Dify

/-! ## Bytes and text -/

/-- One byte of the response body. -/
abbrev Byte := Nat

/-- The bytes of an ASCII string literal. -/
def ascii (s : String) : List Byte := s.toList.map Char.toNat

/-- The line delimiter passed to `ReadBytes`. -/
def newline : Byte := 10

/-- The bytes of `[]byte("data:")`. -/
def dataPrefix : List Byte := [100, 97, 116, 97, 58]

/-! ## Data model -/

/-- The anonymous `Usage` struct of `ChatMessageStreamMetadataResponse`.
`Latency` is a `float64` in the source; the handler only moves it, so it is
kept as its 64-bit pattern. -/
structure Usage where
  PromptTokens : Int := 0
  PromptUnitPrice : String := ""
  PromptPriceUnit : String := ""
  PromptPrice : String := ""
  CompletionTokens : Int := 0
  CompletionUnitPrice : String := ""
  CompletionPriceUnit : String := ""
  CompletionPrice : String := ""
  TotalTokens : Int := 0
  TotalPrice : String := ""
  Currency : String := ""
  Latency : Nat := 0
  deriving DecidableEq, Repr

/-- The struct `ChatMessageStreamMetadataResponse`. -/
structure ChatMessageStreamMetadataResponse where
  Usage : Usage := {}
  deriving DecidableEq, Repr

/-- The struct `ChatMessageStreamResponse`; the defaults are Go zero values. -/
structure ChatMessageStreamResponse where
  Event : String := ""
  TaskID : String := ""
  ID : String := ""
  Answer : String := ""
  Metadata : ChatMessageStreamMetadataResponse := {}
  CreatedAt : Int := 0
  ConversationID : String := ""
  deriving DecidableEq, Repr

/-- The error that ends a body: `io.EOF`, or any other read failure with its
text. -/
inductive ReadError where
  | EOF
  | other (msg : List Byte)
  deriving DecidableEq, Repr

/-- The result of `err.Error()` for a read error. -/
def ReadError.Error : ReadError → List Byte
  | .EOF => ascii "EOF"
  | .other msg => msg

/-- An error returned by `json.Unmarshal`, known by its text. -/
structure JsonError where
  msg : List Byte
  deriving DecidableEq, Repr

/-- The three error values the handler builds, one per failing branch. -/
inductive StreamError where
  /-- The value `fmt.Errorf("error reading line: %w", err)`. -/
  | readingLine (err : ReadError)
  /-- The value `fmt.Errorf("error unmarshalling event: %w", err)`. -/
  | unmarshallingEvent (err : JsonError)
  /-- The value `errors.New("error streaming event: " + string(line))`. -/
  | streamingEvent (line : List Byte)
  deriving DecidableEq, Repr

/-- The text `Error()` returns for each of the three error values. -/
def StreamError.Error : StreamError → List Byte
  | .readingLine err => ascii "error reading line: " ++ err.Error
  | .unmarshallingEvent err => ascii "error unmarshalling event: " ++ err.msg
  | .streamingEvent line => ascii "error streaming event: " ++ line

/-- The struct `ChatMessageStreamChannelResponse`: the embedded response and
`Err`, where `none` is Go's `nil`. -/
structure ChatMessageStreamChannelResponse extends ChatMessageStreamResponse where
  Err : Option StreamError := none
  deriving DecidableEq, Repr

/-- The bytes the reader will deliver, and the error it reports once they are
used up. -/
structure Body where
  data : List Byte
  err : ReadError
  deriving DecidableEq, Repr

/-- What a run of the handler does that others can observe, in order. -/
inductive Effect where
  /-- A send on the channel that the consumer received. -/
  | send (o : ChatMessageStreamChannelResponse)
  /-- A send on the channel that the consumer never receives: the handler
  stays in it. -/
  | blocked (o : ChatMessageStreamChannelResponse)
  /-- The deferred `close(streamChannel)`. -/
  | closeChan
  /-- The deferred `resp.Body.Close()`. -/
  | closeBody
  deriving DecidableEq, Repr

/-- The surroundings of one run: `done i` tells whether `ctx.Done()` is ready
at the `i`-th evaluation of the `select`, and `recv k` whether the consumer
ever receives the `k`-th send on the unbuffered channel. -/
structure Env where
  done : Nat → Bool
  recv : Nat → Bool

/-- No cancellation, and a consumer that receives every outcome. -/
def Env.quiet : Env := ⟨fun _ => false, fun _ => true⟩

/-! ## Library operations used by the handler -/

/-- The call `bufio.Reader.ReadBytes(delim)` on the bytes still to come: the
line up to and including the first `delim` with the bytes that follow it, or,
when no `delim` comes before the error, the bytes read and `none`. -/
def readBytes (delim : Byte) : List Byte → List Byte × Option (List Byte)
  | [] => ([], none)
  | b :: bs =>
    if b = delim then ([b], some bs)
    else ((b :: (readBytes delim bs).1), (readBytes delim bs).2)

/-- The call `bytes.HasPrefix(s, p)`. -/
def hasPrefix (s p : List Byte) : Bool := p.isPrefixOf s

/-- The call `bytes.TrimPrefix(s, p)`. -/
def trimPrefix (s p : List Byte) : List Byte :=
  if hasPrefix s p then s.drop p.length else s

/-- The type of `json.Unmarshal(line, &resp)` for a fresh `resp`: the decoded
response (`Err` has the tag `json:"-"` and stays nil) or the decoder's error. -/
abbrev Unmarshal := List Byte → Except JsonError ChatMessageStreamResponse

/-! ## The handler -/

/-- The two deferred calls, run in reverse order of their `defer` statements
when the handler returns. -/
def deferred : List Effect := [.closeChan, .closeBody]

/-- The statement `streamChannel <- o` as the `k`-th send, followed by `rest`:
on the unbuffered channel the handler goes on only if the consumer receives. -/
def sendThen (env : Env) (k : Nat) (o : ChatMessageStreamChannelResponse)
    (rest : List Effect) : List Effect :=
  if env.recv k then .send o :: rest else [.blocked o]

/-- The `for` loop of `chatMessagesStreamHandle`, one iteration per unit of
`fuel`; `iter` counts the iterations done, `k` the sends done, and `data` is
what the reader has not yet delivered. Without fuel the run is cut with no
return, so no deferred call appears. -/
def handleLoop (unmarshal : Unmarshal) (env : Env) (err : ReadError) :
    Nat → Nat → Nat → List Byte → List Effect
  | 0, _, _, _ => []
  | fuel + 1, iter, k, data =>
    if env.done iter then deferred
    else
      match readBytes newline data with
      | (_, none) => sendThen env k { Err := some (.readingLine err) } deferred
      | (line, some rest) =>
        if !hasPrefix line dataPrefix then
          handleLoop unmarshal env err fuel (iter + 1) k rest
        else
          let line := trimPrefix line dataPrefix
          match unmarshal line with
          | .error e => sendThen env k { Err := some (.unmarshallingEvent e) } deferred
          | .ok resp =>
            if resp.Event = "error" then
              sendThen env k { Err := some (.streamingEvent line) } deferred
            else if resp.Event = "message_end" then
              sendThen env k { toChatMessageStreamResponse := resp } deferred
            else
              sendThen env k { toChatMessageStreamResponse := resp }
                (handleLoop unmarshal env err fuel (iter + 1) (k + 1) rest)

/-- The method `chatMessagesStreamHandle` on a body: the loop started with one
unit of fuel more than the body has bytes, which is always enough since every
iteration that goes on has consumed at least the delimiter. -/
def chatMessagesStreamHandle (unmarshal : Unmarshal) (env : Env) (body : Body) :
    List Effect :=
  handleLoop unmarshal env body.err (body.data.length + 1) 0 0 body.data

/-! ## A decoder for the examples -/

/-- The payload of a `message` event with the answer `Hi`. -/
def pMessage : List Byte := ascii "\x7b\"event\":\"message\",\"answer\":\"Hi\"\x7d\n"

/-- The payload of a `message_end` event with token counts. -/
def pEnd : List Byte :=
  ascii "\x7b\"event\":\"message_end\",\"metadata\":\x7b\"usage\":\x7b\"total_tokens\":7\x7d\x7d\x7d\n"

/-- The payload of an `error` event. -/
def pError : List Byte := ascii "\x7b\"event\":\"error\",\"message\":\"quota\"\x7d\n"

/-- A payload that is not JSON. -/
def pBad : List Byte := ascii "\x7bbad\n"

/-- The decoded `message` event of the examples. -/
def evMessage : ChatMessageStreamResponse := { Event := "message", Answer := "Hi" }

/-- The decoded `message_end` event of the examples. -/
def evEnd : ChatMessageStreamResponse :=
  { Event := "message_end", Metadata := { Usage := { TotalTokens := 7 } } }

/-- The error of the Go decoder on `pBad`: a `b` stands where an object key
should start. -/
def errBad : JsonError :=
  ⟨ascii "invalid character 'b' looking for beginning of object key string"⟩

/-- A table of `json.Unmarshal` on the four example payloads (`pEnd` also
without its line feed), used only to run the handler on concrete bodies. A
payload outside the table is answered with the error for empty input. -/
def sampleUnmarshal : Unmarshal := fun p =>
  if p = pMessage then .ok evMessage
  else if p = pEnd ∨ p = pEnd.dropLast then .ok evEnd
  else if p = pError then .ok { Event := "error" }
  else if p = pBad then .error errBad
  else .error ⟨ascii "unexpected end of JSON input"⟩

/-- Equality of decoder results is decidable. -/
instance instDecidableEqExcept {ε α : Type} [DecidableEq ε] [DecidableEq α] :
    DecidableEq (Except ε α)
  | .ok a, .ok b => if h : a = b then isTrue (by rw [h]) else isFalse (by simp [h])
  | .error a, .error b => if h : a = b then isTrue (by rw [h]) else isFalse (by simp [h])
  | .ok _, .error _ => isFalse (by simp)
  | .error _, .ok _ => isFalse (by simp)

/-! ## Lines of a body, as the statements below describe them -/

/-- A complete line: it ends with the delimiter and has no other. -/
def isLine (l : List Byte) : Bool :=
  l.getLast? == some newline && !(l.dropLast.contains newline)

/-- The outcome a line yields when it is a data line that decodes. -/
def eventOf (unmarshal : Unmarshal) (l : List Byte) :
    Option ChatMessageStreamChannelResponse :=
  if hasPrefix l dataPrefix then
    match unmarshal (trimPrefix l dataPrefix) with
    | .ok e => some { toChatMessageStreamResponse := e }
    | .error _ => none
  else none

/-- The outcomes of the data lines among `lines`, in order. -/
def eventsOf (unmarshal : Unmarshal) (lines : List (List Byte)) :
    List ChatMessageStreamChannelResponse :=
  lines.filterMap (eventOf unmarshal)

/-- A complete line that is not a terminal frame: either it is not a data
line, or its payload decodes with a tag other than `error` and `message_end`. -/
def passes (unmarshal : Unmarshal) (l : List Byte) : Bool :=
  isLine l && (!hasPrefix l dataPrefix ||
    match unmarshal (trimPrefix l dataPrefix) with
    | .ok e => e.Event != "error" && e.Event != "message_end"
    | .error _ => false)

/-- The outcomes the consumer received in a run. -/
def sent : List Effect → List ChatMessageStreamChannelResponse
  | [] => []
  | .send o :: t => o :: sent t
  | _ :: t => sent t

/-- A successful outcome whose event does not end the stream. -/
def IsEvent (o : ChatMessageStreamChannelResponse) : Prop :=
  o.Err = none ∧ o.Event ≠ "error" ∧ o.Event ≠ "message_end"

/-- A terminal outcome: a failure, or the `message_end` event. -/
def IsTerminal (o : ChatMessageStreamChannelResponse) : Prop :=
  o.Err ≠ none ∨ (o.Err = none ∧ o.Event = "message_end")

/-! ## The reader -/

theorem readBytes_line (p rest : List Byte) (hp : newline ∉ p) :
    readBytes newline (p ++ newline :: rest) = (p ++ [newline], some rest) := by
  induction p with
  | nil => simp [readBytes]
  | cons b bs ih =>
    have hb : b ≠ newline := fun h => hp (by simp [h])
    have hbs : newline ∉ bs := fun h => hp (by simp [h])
    simp [readBytes, hb, ih hbs]

theorem readBytes_noDelim (p : List Byte) (hp : newline ∉ p) :
    readBytes newline p = (p, none) := by
  induction p with
  | nil => simp [readBytes]
  | cons b bs ih =>
    have hb : b ≠ newline := fun h => hp (by simp [h])
    have hbs : newline ∉ bs := fun h => hp (by simp [h])
    simp [readBytes, hb, ih hbs]

theorem readBytes_rest_length (delim : Byte) (data : List Byte) :
    ∀ rest, (readBytes delim data).2 = some rest → rest.length < data.length := by
  induction data with
  | nil => intro rest h; simp [readBytes] at h
  | cons b bs ih =>
    intro rest h
    by_cases hb : b = delim
    · simp [readBytes, hb] at h
      subst h
      simp
    · simp [readBytes, hb] at h
      have := ih rest h
      simp
      omega

theorem isLine_split (l : List Byte) (h : isLine l = true) :
    ∃ p, newline ∉ p ∧ l = p ++ [newline] := by
  refine ⟨l.dropLast, ?_, ?_⟩
  · simp [isLine] at h
    exact h.2
  · simp [isLine] at h
    have h1 := h.1
    rcases List.eq_nil_or_concat l with hnil | ⟨p, b, hpb⟩
    · subst hnil; simp at h1
    · subst hpb
      simp at h1
      simp [h1]

/-! ## One iteration -/

theorem handleLoop_line (unmarshal : Unmarshal) (env : Env) (err : ReadError)
    (fuel iter k : Nat) (p rest : List Byte) (hp : newline ∉ p)
    (hd : env.done iter = false) :
    handleLoop unmarshal env err (fuel + 1) iter k (p ++ newline :: rest) =
      if !hasPrefix (p ++ [newline]) dataPrefix then
        handleLoop unmarshal env err fuel (iter + 1) k rest
      else
        match unmarshal (trimPrefix (p ++ [newline]) dataPrefix) with
        | .error e => sendThen env k { Err := some (.unmarshallingEvent e) } deferred
        | .ok resp =>
          if resp.Event = "error" then
            sendThen env k
              { Err := some (.streamingEvent (trimPrefix (p ++ [newline]) dataPrefix)) }
              deferred
          else if resp.Event = "message_end" then
            sendThen env k { toChatMessageStreamResponse := resp } deferred
          else
            sendThen env k { toChatMessageStreamResponse := resp }
              (handleLoop unmarshal env err fuel (iter + 1) (k + 1) rest) := by
  rw [handleLoop]
  simp only [hd, readBytes_line p rest hp]
  rfl

theorem handleLoop_readError (unmarshal : Unmarshal) (env : Env) (err : ReadError)
    (fuel iter k : Nat) (p : List Byte) (hp : newline ∉ p)
    (hd : env.done iter = false) :
    handleLoop unmarshal env err (fuel + 1) iter k p =
      sendThen env k { Err := some (.readingLine err) } deferred := by
  rw [handleLoop]
  simp only [hd, readBytes_noDelim p hp]
  rfl

theorem handleLoop_done (unmarshal : Unmarshal) (env : Env) (err : ReadError)
    (fuel iter k : Nat) (data : List Byte) (hd : env.done iter = true) :
    handleLoop unmarshal env err (fuel + 1) iter k data = deferred := by
  rw [handleLoop]
  simp [hd]

/-- Lines that are not terminal frames: the loop sends the events of the data
lines among them, in order, and goes on with what follows. -/
theorem handleLoop_lines (unmarshal : Unmarshal) (env : Env) (err : ReadError)
    (rest : List Byte) (lines : List (List Byte)) :
    ∀ fuel iter k : Nat,
      (∀ l ∈ lines, passes unmarshal l = true) →
      (∀ i, i < lines.length → env.done (iter + i) = false) →
      (∀ j, j < (eventsOf unmarshal lines).length → env.recv (k + j) = true) →
      (lines.flatten ++ rest).length < fuel →
      handleLoop unmarshal env err fuel iter k (lines.flatten ++ rest) =
        (eventsOf unmarshal lines).map Effect.send ++
          handleLoop unmarshal env err (fuel - lines.length) (iter + lines.length)
            (k + (eventsOf unmarshal lines).length) rest := by
  induction lines with
  | nil => intro fuel iter k _ _ _ _; simp [eventsOf]
  | cons l ls ih =>
    intro fuel iter k hpass hdone hrecv hfuel
    have hl : passes unmarshal l = true := hpass l (by simp)
    have hls : ∀ x ∈ ls, passes unmarshal x = true := fun x hx => hpass x (by simp [hx])
    have hl1 : isLine l = true := by
      simp only [passes, Bool.and_eq_true] at hl
      exact hl.1
    obtain ⟨p, hp, rfl⟩ := isLine_split l hl1
    obtain ⟨f, rfl⟩ : ∃ f, fuel = f + 1 := ⟨fuel - 1, by omega⟩
    have hd0 : env.done iter = false := by simpa using hdone 0 (by simp)
    have hdone1 : ∀ i, i < ls.length → env.done (iter + 1 + i) = false := by
      intro i hi
      have := hdone (i + 1) (by simp; omega)
      rwa [show iter + 1 + i = iter + (i + 1) by omega]
    have hfuel1 : (ls.flatten ++ rest).length < f := by
      simp at hfuel ⊢
      omega
    have hdata : ((p ++ [newline]) :: ls).flatten ++ rest =
        p ++ newline :: (ls.flatten ++ rest) := by simp
    rw [hdata, handleLoop_line unmarshal env err f iter k p _ hp hd0]
    have hfu : f + 1 - ((p ++ [newline]) :: ls).length = f - ls.length := by simp
    have hit : iter + ((p ++ [newline]) :: ls).length = iter + 1 + ls.length := by
      simp; omega
    rw [hfu, hit]
    by_cases hpre : hasPrefix (p ++ [newline]) dataPrefix = true
    · simp only [hpre, Bool.not_true, Bool.false_eq_true, if_false]
      simp only [passes, hl1, hpre, Bool.not_true, Bool.false_or, Bool.true_and] at hl
      cases hu : unmarshal (trimPrefix (p ++ [newline]) dataPrefix) with
      | error e => simp [hu] at hl
      | ok resp =>
        simp only [hu, bne_iff_ne, ne_eq, Bool.and_eq_true, decide_eq_true_eq] at hl
        have hev : eventsOf unmarshal ((p ++ [newline]) :: ls) =
            { toChatMessageStreamResponse := resp } :: eventsOf unmarshal ls := by
          simp [eventsOf, eventOf, hpre, hu]
        have hr0 : env.recv k = true := by
          have := hrecv 0 (by simp [hev])
          simpa using this
        have hrecv1 : ∀ j, j < (eventsOf unmarshal ls).length →
            env.recv (k + 1 + j) = true := by
          intro j hj
          have := hrecv (j + 1) (by simp [hev]; omega)
          rwa [show k + 1 + j = k + (j + 1) by omega]
        simp only [hl.1, hl.2, if_false, sendThen, hr0, if_true]
        rw [ih f (iter + 1) (k + 1) hls hdone1 hrecv1 hfuel1, hev]
        simp only [List.map_cons, List.cons_append, List.length_cons]
        rw [show k + 1 + (eventsOf unmarshal ls).length =
          k + ((eventsOf unmarshal ls).length + 1) by omega]
    · have hpre2 : hasPrefix (p ++ [newline]) dataPrefix = false := by
        simpa using hpre
      have hev : eventsOf unmarshal ((p ++ [newline]) :: ls) = eventsOf unmarshal ls := by
        simp [eventsOf, eventOf, hpre2]
      have hrecv1 : ∀ j, j < (eventsOf unmarshal ls).length →
          env.recv (k + j) = true := by
        intro j hj
        exact hrecv j (by rw [hev]; exact hj)
      simp only [hpre2, Bool.not_false, if_true]
      rw [ih f (iter + 1) k hls hdone1 hrecv1 hfuel1, hev]

/-! ## Runs of the handler over a body -/

theorem passes_isLine (unmarshal : Unmarshal) (l : List Byte)
    (h : passes unmarshal l = true) : isLine l = true := by
  simp only [passes, Bool.and_eq_true] at h
  exact h.1

theorem length_le_flatten (unmarshal : Unmarshal) (lines : List (List Byte))
    (h : ∀ l ∈ lines, passes unmarshal l = true) :
    lines.length ≤ lines.flatten.length := by
  induction lines with
  | nil => simp
  | cons l ls ih =>
    obtain ⟨p, _, rfl⟩ := isLine_split l (passes_isLine unmarshal l (h l (by simp)))
    have := ih (fun x hx => h x (by simp [hx]))
    rw [List.flatten_cons, List.length_append, List.length_append, List.length_cons,
      List.length_cons]
    omega

/-- The handler on a body that starts with lines that are not terminal frames:
their events are sent, and the loop stands at the next boundary with fuel left. -/
theorem handle_lines (unmarshal : Unmarshal) (env : Env) (err : ReadError)
    (lines : List (List Byte)) (rest : List Byte)
    (hpass : ∀ l ∈ lines, passes unmarshal l = true)
    (hdone : ∀ i, i < lines.length → env.done i = false)
    (hrecv : ∀ j, j < (eventsOf unmarshal lines).length → env.recv j = true) :
    ∃ f, rest.length ≤ f ∧
      chatMessagesStreamHandle unmarshal env ⟨lines.flatten ++ rest, err⟩ =
        (eventsOf unmarshal lines).map Effect.send ++
          handleLoop unmarshal env err (f + 1) lines.length
            (eventsOf unmarshal lines).length rest := by
  have hlen := length_le_flatten unmarshal lines hpass
  refine ⟨lines.flatten.length + rest.length - lines.length, by omega, ?_⟩
  have h := handleLoop_lines unmarshal env err rest lines
    ((lines.flatten ++ rest).length + 1) 0 0 hpass
    (by intro i hi; simpa using hdone i hi)
    (by intro j hj; simpa using hrecv j hj)
    (by omega)
  simp only [Nat.zero_add] at h
  unfold chatMessagesStreamHandle
  rw [h]
  congr 2
  rw [List.length_append]
  omega

theorem hasPrefix_data (q : List Byte) : hasPrefix (dataPrefix ++ q) dataPrefix = true := by
  simp [hasPrefix, dataPrefix]

theorem trimPrefix_data (q : List Byte) : trimPrefix (dataPrefix ++ q) dataPrefix = q := by
  simp [trimPrefix, hasPrefix, dataPrefix]

theorem isLine_data (q : List Byte) (h : isLine q = true) :
    isLine (dataPrefix ++ q) = true := by
  obtain ⟨p, hp, rfl⟩ := isLine_split q h
  have hd : newline ∉ dataPrefix := by decide
  rw [← List.append_assoc]
  simp [isLine, hp, hd]

/-- The handler at a data line, after lines that are not terminal frames, with
no cancellation and every outcome received. -/
theorem handle_data_line (unmarshal : Unmarshal) (err : ReadError)
    (lines : List (List Byte)) (q tail : List Byte)
    (hpass : ∀ l ∈ lines, passes unmarshal l = true) (hq : isLine q = true) :
    ∃ f, chatMessagesStreamHandle unmarshal Env.quiet
        ⟨lines.flatten ++ (dataPrefix ++ q) ++ tail, err⟩ =
      (eventsOf unmarshal lines).map Effect.send ++
        match unmarshal q with
        | .error e => [.send { Err := some (.unmarshallingEvent e) }, .closeChan, .closeBody]
        | .ok resp =>
          if resp.Event = "error" then
            [.send { Err := some (.streamingEvent q) }, .closeChan, .closeBody]
          else if resp.Event = "message_end" then
            [.send { toChatMessageStreamResponse := resp }, .closeChan, .closeBody]
          else
            .send { toChatMessageStreamResponse := resp } ::
              handleLoop unmarshal Env.quiet err f (lines.length + 1)
                ((eventsOf unmarshal lines).length + 1) tail := by
  obtain ⟨f, _, h⟩ := handle_lines unmarshal Env.quiet err lines ((dataPrefix ++ q) ++ tail)
    hpass (fun _ _ => rfl) (fun _ _ => rfl)
  refine ⟨f, ?_⟩
  obtain ⟨p, hp, rfl⟩ := isLine_split q hq
  have hd : newline ∉ dataPrefix := by decide
  have hdp : newline ∉ dataPrefix ++ p := by simp [hp, hd]
  have hdata : lines.flatten ++ (dataPrefix ++ (p ++ [newline])) ++ tail =
      lines.flatten ++ ((dataPrefix ++ (p ++ [newline])) ++ tail) := by simp
  have hdata2 : (dataPrefix ++ (p ++ [newline])) ++ tail =
      (dataPrefix ++ p) ++ newline :: tail := by simp
  rw [hdata, h, hdata2, handleLoop_line unmarshal Env.quiet err f _ _ _ tail hdp rfl]
  have e1 : dataPrefix ++ p ++ [newline] = dataPrefix ++ (p ++ [newline]) := by simp
  rw [e1, hasPrefix_data, trimPrefix_data]
  simp only [Bool.not_true, Bool.false_eq_true, if_false]
  cases unmarshal (p ++ [newline]) with
  | error e => rfl
  | ok resp =>
    by_cases h1 : resp.Event = "error"
    · simp only [h1, if_true]; rfl
    · by_cases h2 : resp.Event = "message_end"
      · simp only [h1, h2, if_true, if_false]; rfl
      · simp only [h1, h2, if_false]; rfl

theorem sent_map_send (outs : List ChatMessageStreamChannelResponse) (t : List Effect) :
    sent (outs.map Effect.send ++ t) = outs ++ sent t := by
  induction outs with
  | nil => rfl
  | cons o os ih => simpa [sent] using ih

/-! ## The stream up to its terminal frame -/

/-- C1: with no cancellation, a body of N data lines whose payloads decode to
events tagged neither `error` nor `message_end`, followed by one data line that
decodes to a `message_end` event, makes the handler send exactly the N events
in the order of their lines with `Err` nil, then the decoded `message_end`
event (metadata included) with `Err` nil, and then close the channel and the
body; nothing else is sent. A payload is the line without its `data:` prefix
and ends with the line feed. -/
theorem C1_events_then_message_end (unmarshal : Unmarshal)
    (frames : List (List Byte × ChatMessageStreamResponse))
    (qe : List Byte) (ee : ChatMessageStreamResponse) (err : ReadError)
    (hframes : ∀ f ∈ frames, isLine f.1 = true ∧ unmarshal f.1 = .ok f.2 ∧
      f.2.Event ≠ "error" ∧ f.2.Event ≠ "message_end")
    (hqe : isLine qe = true) (hdec : unmarshal qe = .ok ee)
    (htag : ee.Event = "message_end") :
    chatMessagesStreamHandle unmarshal Env.quiet
        ⟨(frames.map fun f => dataPrefix ++ f.1).flatten ++ (dataPrefix ++ qe), err⟩ =
      (frames.map fun f => Effect.send { toChatMessageStreamResponse := f.2 }) ++
        [.send { toChatMessageStreamResponse := ee }, .closeChan, .closeBody] := by
  have hpass : ∀ l ∈ frames.map (fun f => dataPrefix ++ f.1),
      passes unmarshal l = true := by
    intro l hl
    obtain ⟨f, hf, rfl⟩ := List.mem_map.1 hl
    obtain ⟨h1, h2, h3, h4⟩ := hframes f hf
    simp [passes, isLine_data _ h1, hasPrefix_data, trimPrefix_data, h2, h3, h4]
  have hev : eventsOf unmarshal (frames.map fun f => dataPrefix ++ f.1) =
      frames.map fun f => { toChatMessageStreamResponse := f.2 } := by
    clear hpass
    induction frames with
    | nil => rfl
    | cons f fs ih =>
      have h2 := (hframes f (by simp)).2.1
      have := ih (fun x hx => hframes x (by simp [hx]))
      simp only [eventsOf] at this
      simp [eventsOf, eventOf, hasPrefix_data, trimPrefix_data, h2, this]
  obtain ⟨f, h⟩ := handle_data_line unmarshal err _ qe [] hpass hqe
  rw [List.append_nil] at h
  rw [h, hev, hdec]
  simp [htag]

/-- C1 at a body of one `message` line and the `message_end` line. -/
theorem C1_events_then_message_end_witness :
    (∀ f ∈ [(pMessage, evMessage)], isLine f.1 = true ∧ sampleUnmarshal f.1 = .ok f.2 ∧
      f.2.Event ≠ "error" ∧ f.2.Event ≠ "message_end") ∧
    isLine pEnd = true ∧ sampleUnmarshal pEnd = .ok evEnd ∧ evEnd.Event = "message_end" ∧
    chatMessagesStreamHandle sampleUnmarshal Env.quiet
        ⟨([(pMessage, evMessage)].map fun f => dataPrefix ++ f.1).flatten ++
          (dataPrefix ++ pEnd), .EOF⟩ =
      ([(pMessage, evMessage)].map fun f =>
          Effect.send { toChatMessageStreamResponse := f.2 }) ++
        [.send { toChatMessageStreamResponse := evEnd }, .closeChan, .closeBody] :=
  ⟨by decide, by decide, by decide, by decide,
    C1_events_then_message_end sampleUnmarshal [(pMessage, evMessage)] pEnd evEnd .EOF
      (by decide) (by decide) (by decide) (by decide)⟩

/-- C2: with no cancellation, when the lines before a data line are complete
lines that are not terminal frames (data lines among them decode to events
tagged neither `error` nor `message_end`) and that data line decodes with the
tag `error`, the handler sends the earlier events in order, then exactly one
failure whose error text contains the raw payload, which is the line with
exactly its leading `data:` removed, and then closes the channel and the body;
whatever follows the line (`tail`) yields nothing. -/
theorem C2_error_event_terminates (unmarshal : Unmarshal)
    (lines : List (List Byte)) (q tail : List Byte) (resp : ChatMessageStreamResponse)
    (err : ReadError)
    (hlines : ∀ l ∈ lines, passes unmarshal l = true)
    (hq : isLine q = true) (hdec : unmarshal q = .ok resp)
    (htag : resp.Event = "error") :
    chatMessagesStreamHandle unmarshal Env.quiet
        ⟨lines.flatten ++ (dataPrefix ++ q) ++ tail, err⟩ =
      (eventsOf unmarshal lines).map Effect.send ++
        [.send { Err := some (.streamingEvent q) }, .closeChan, .closeBody] ∧
    q <:+: (StreamError.streamingEvent q).Error ∧
    q = (dataPrefix ++ q).drop dataPrefix.length := by
  obtain ⟨f, h⟩ := handle_data_line unmarshal err lines q tail hlines hq
  refine ⟨?_, ?_, ?_⟩
  · rw [h, hdec]
    simp [htag]
  · exact ⟨ascii "error streaming event: ", [], by simp [StreamError.Error]⟩
  · simp

/-- C2 at a body with a `message` line, a comment, an `error` line and a
`message_end` line after it. -/
theorem C2_error_event_terminates_witness :
    (∀ l ∈ [dataPrefix ++ pMessage, ascii ": ping\n"], passes sampleUnmarshal l = true) ∧
    isLine pError = true ∧ sampleUnmarshal pError = .ok { Event := "error" } ∧
    chatMessagesStreamHandle sampleUnmarshal Env.quiet
        ⟨[dataPrefix ++ pMessage, ascii ": ping\n"].flatten ++ (dataPrefix ++ pError) ++
          (dataPrefix ++ pEnd), .EOF⟩ =
      (eventsOf sampleUnmarshal [dataPrefix ++ pMessage, ascii ": ping\n"]).map Effect.send ++
        [.send { Err := some (.streamingEvent pError) }, .closeChan, .closeBody] ∧
    pError <:+: (StreamError.streamingEvent pError).Error ∧
    pError = (dataPrefix ++ pError).drop dataPrefix.length :=
  ⟨by decide, by decide, by decide,
    C2_error_event_terminates sampleUnmarshal [dataPrefix ++ pMessage, ascii ": ping\n"]
      pError (dataPrefix ++ pEnd) { Event := "error" } .EOF
      (by decide) (by decide) (by decide) (by decide)⟩

/-- C3: with no cancellation, when the first terminal frame of a body is a
data line whose payload the decoder rejects, the handler sends the events of
the earlier lines, then exactly one failure wrapping the decode error, and
then closes the channel and the body: no line after the malformed one yields
an outcome. -/
theorem C3_decode_error_terminates (unmarshal : Unmarshal)
    (lines : List (List Byte)) (q tail : List Byte) (e : JsonError) (err : ReadError)
    (hlines : ∀ l ∈ lines, passes unmarshal l = true)
    (hq : isLine q = true) (hdec : unmarshal q = .error e) :
    chatMessagesStreamHandle unmarshal Env.quiet
        ⟨lines.flatten ++ (dataPrefix ++ q) ++ tail, err⟩ =
      (eventsOf unmarshal lines).map Effect.send ++
        [.send { Err := some (.unmarshallingEvent e) }, .closeChan, .closeBody] := by
  obtain ⟨f, h⟩ := handle_data_line unmarshal err lines q tail hlines hq
  rw [h, hdec]

/-- C3 at a body with a `message` line, a malformed data line and a
`message_end` line after it. -/
theorem C3_decode_error_terminates_witness :
    (∀ l ∈ [dataPrefix ++ pMessage], passes sampleUnmarshal l = true) ∧
    isLine pBad = true ∧ sampleUnmarshal pBad = .error errBad ∧
    chatMessagesStreamHandle sampleUnmarshal Env.quiet
        ⟨[dataPrefix ++ pMessage].flatten ++ (dataPrefix ++ pBad) ++ (dataPrefix ++ pEnd),
          .EOF⟩ =
      (eventsOf sampleUnmarshal [dataPrefix ++ pMessage]).map Effect.send ++
        [.send { Err := some (.unmarshallingEvent errBad) }, .closeChan, .closeBody] :=
  ⟨by decide, by decide, by decide,
    C3_decode_error_terminates sampleUnmarshal [dataPrefix ++ pMessage] pBad
      (dataPrefix ++ pEnd) errBad .EOF (by decide) (by decide) (by decide)⟩

/-! ## The end of the body -/

/-- C7: with no cancellation, when a body ends, or its read fails, before any
terminal frame (its complete lines are not terminal frames, and what follows
them has no line feed), the handler sends the events of the complete data
lines in order, then exactly one failure wrapping the read error, and then
closes the channel and the body: the channel never closes without an outcome. -/
theorem C7_read_error_reported (unmarshal : Unmarshal)
    (lines : List (List Byte)) (part : List Byte) (err : ReadError)
    (hlines : ∀ l ∈ lines, passes unmarshal l = true)
    (hpart : newline ∉ part) :
    chatMessagesStreamHandle unmarshal Env.quiet ⟨lines.flatten ++ part, err⟩ =
      (eventsOf unmarshal lines).map Effect.send ++
        [.send { Err := some (.readingLine err) }, .closeChan, .closeBody] := by
  obtain ⟨f, _, h⟩ := handle_lines unmarshal Env.quiet err lines part
    hlines (fun _ _ => rfl) (fun _ _ => rfl)
  rw [h, handleLoop_readError unmarshal Env.quiet err f _ _ part hpart rfl]
  rfl

/-- C7 at a body of one `message` line and a blank line, ended by a transport
error. -/
theorem C7_read_error_reported_witness :
    (∀ l ∈ [dataPrefix ++ pMessage, ascii "\n"], passes sampleUnmarshal l = true) ∧
    newline ∉ ([] : List Byte) ∧
    chatMessagesStreamHandle sampleUnmarshal Env.quiet
        ⟨[dataPrefix ++ pMessage, ascii "\n"].flatten ++ [],
          .other (ascii "connection reset by peer")⟩ =
      (eventsOf sampleUnmarshal [dataPrefix ++ pMessage, ascii "\n"]).map Effect.send ++
        [.send { Err := some (.readingLine (.other (ascii "connection reset by peer"))) },
          .closeChan, .closeBody] :=
  ⟨by decide, by decide,
    C7_read_error_reported sampleUnmarshal [dataPrefix ++ pMessage, ascii "\n"] []
      (.other (ascii "connection reset by peer")) (by decide) (by decide)⟩

/-- C10: with no cancellation, when the last bytes of a body form a data line
with no line feed and the lines before it are not terminal frames, the handler
sends the events of the earlier lines and then a failure wrapping the end of
the stream, and closes: the final frame yields no event, whatever the decoder
would make of its payload, with or without a line feed added. -/
theorem C10_unterminated_frame_not_decoded (unmarshal : Unmarshal)
    (lines : List (List Byte)) (p : List Byte)
    (hlines : ∀ l ∈ lines, passes unmarshal l = true)
    (hp : newline ∉ p) :
    chatMessagesStreamHandle unmarshal Env.quiet
        ⟨lines.flatten ++ (dataPrefix ++ p), .EOF⟩ =
      (eventsOf unmarshal lines).map Effect.send ++
        [.send { Err := some (.readingLine .EOF) }, .closeChan, .closeBody] ∧
    sent (chatMessagesStreamHandle unmarshal Env.quiet
        ⟨lines.flatten ++ (dataPrefix ++ p), .EOF⟩) =
      eventsOf unmarshal lines ++ [{ Err := some (.readingLine .EOF) }] := by
  have hd : newline ∉ dataPrefix := by decide
  have hdp : newline ∉ dataPrefix ++ p := by simp [hp, hd]
  obtain ⟨f, _, h⟩ := handle_lines unmarshal Env.quiet .EOF lines (dataPrefix ++ p)
    hlines (fun _ _ => rfl) (fun _ _ => rfl)
  have h2 : chatMessagesStreamHandle unmarshal Env.quiet
        ⟨lines.flatten ++ (dataPrefix ++ p), .EOF⟩ =
      (eventsOf unmarshal lines).map Effect.send ++
        [.send { Err := some (.readingLine .EOF) }, .closeChan, .closeBody] := by
    rw [h, handleLoop_readError unmarshal Env.quiet .EOF f _ _ _ hdp rfl]
    rfl
  refine ⟨h2, ?_⟩
  rw [h2, sent_map_send]
  rfl

/-- C10 at a body of one `message` line followed by a `message_end` frame
that lacks its line feed, a payload the decoder accepts. -/
theorem C10_unterminated_frame_not_decoded_witness :
    (∀ l ∈ [dataPrefix ++ pMessage], passes sampleUnmarshal l = true) ∧
    newline ∉ pEnd.dropLast ∧
    sampleUnmarshal pEnd.dropLast = .ok evEnd ∧
    (chatMessagesStreamHandle sampleUnmarshal Env.quiet
        ⟨[dataPrefix ++ pMessage].flatten ++ (dataPrefix ++ pEnd.dropLast), .EOF⟩ =
      (eventsOf sampleUnmarshal [dataPrefix ++ pMessage]).map Effect.send ++
        [.send { Err := some (.readingLine .EOF) }, .closeChan, .closeBody] ∧
    sent (chatMessagesStreamHandle sampleUnmarshal Env.quiet
        ⟨[dataPrefix ++ pMessage].flatten ++ (dataPrefix ++ pEnd.dropLast), .EOF⟩) =
      eventsOf sampleUnmarshal [dataPrefix ++ pMessage] ++
        [{ Err := some (.readingLine .EOF) }]) :=
  ⟨by decide, by decide, by decide,
    C10_unterminated_frame_not_decoded sampleUnmarshal [dataPrefix ++ pMessage]
      pEnd.dropLast (by decide) (by decide)⟩

/-! ## Cancellation -/

/-- C4, as the code has it: when the handler finds `ctx.Done()` ready at a
loop boundary, after lines that are not terminal frames, it sends nothing more
and closes the channel and the body. The consumer got the events of those
lines and no outcome for the cancellation; when the context is cancelled
before the first read (`lines = []`), the channel closes with no outcome. -/
theorem C4_cancellation_closes_without_outcome (unmarshal : Unmarshal) (env : Env)
    (err : ReadError) (lines : List (List Byte)) (rest : List Byte)
    (hlines : ∀ l ∈ lines, passes unmarshal l = true)
    (hdone : ∀ i, i < lines.length → env.done i = false)
    (hrecv : ∀ j, j < (eventsOf unmarshal lines).length → env.recv j = true)
    (hcancel : env.done lines.length = true) :
    chatMessagesStreamHandle unmarshal env ⟨lines.flatten ++ rest, err⟩ =
      (eventsOf unmarshal lines).map Effect.send ++ [.closeChan, .closeBody] := by
  obtain ⟨f, _, h⟩ := handle_lines unmarshal env err lines rest hlines hdone hrecv
  rw [h, handleLoop_done unmarshal env err f _ _ rest hcancel]
  rfl

/-- C4 as amended, at a context cancelled after the first line was handled. -/
theorem C4_cancellation_closes_without_outcome_witness :
    (∀ l ∈ [dataPrefix ++ pMessage], passes sampleUnmarshal l = true) ∧
    (∀ i, i < [dataPrefix ++ pMessage].length →
      (⟨fun i => decide (1 ≤ i), fun _ => true⟩ : Env).done i = false) ∧
    (∀ j, j < (eventsOf sampleUnmarshal [dataPrefix ++ pMessage]).length →
      (⟨fun i => decide (1 ≤ i), fun _ => true⟩ : Env).recv j = true) ∧
    (⟨fun i => decide (1 ≤ i), fun _ => true⟩ : Env).done [dataPrefix ++ pMessage].length
      = true ∧
    chatMessagesStreamHandle sampleUnmarshal ⟨fun i => decide (1 ≤ i), fun _ => true⟩
        ⟨[dataPrefix ++ pMessage].flatten ++ (dataPrefix ++ pEnd), .EOF⟩ =
      (eventsOf sampleUnmarshal [dataPrefix ++ pMessage]).map Effect.send ++
        [.closeChan, .closeBody] :=
  ⟨by decide, by decide, by decide, by decide,
    C4_cancellation_closes_without_outcome sampleUnmarshal
      ⟨fun i => decide (1 ≤ i), fun _ => true⟩ .EOF [dataPrefix ++ pMessage]
      (dataPrefix ++ pEnd) (by decide) (by decide) (by decide) (by decide)⟩

/-- C4 as stated fails: with the context cancelled before the first read, the
handler closes the channel and the body and has sent no outcome at all, so no
failure outcome tells the consumer of the cancellation. -/
theorem C4_counterexample :
    chatMessagesStreamHandle sampleUnmarshal ⟨fun _ => true, fun _ => true⟩
        ⟨dataPrefix ++ pMessage ++ (dataPrefix ++ pEnd), .EOF⟩ =
      [.closeChan, .closeBody] ∧
    ¬ ∃ o, Effect.send o ∈ chatMessagesStreamHandle sampleUnmarshal
        ⟨fun _ => true, fun _ => true⟩
        ⟨dataPrefix ++ pMessage ++ (dataPrefix ++ pEnd), .EOF⟩ ∧ o.Err ≠ none := by
  have h : chatMessagesStreamHandle sampleUnmarshal ⟨fun _ => true, fun _ => true⟩
        ⟨dataPrefix ++ pMessage ++ (dataPrefix ++ pEnd), .EOF⟩ =
      [.closeChan, .closeBody] := by decide
  refine ⟨h, ?_⟩
  rw [h]
  simp

/-! ## What a decode failure carries -/

/-- C8, as the code has it: when the first terminal frame is a data line whose
payload the decoder rejects, the failure sent for it wraps the decoder's
error; its text is `error unmarshalling event: ` followed by the text of that
error, and the raw payload is not added to it. -/
theorem C8_decode_failure_wraps_decoder_error (unmarshal : Unmarshal)
    (lines : List (List Byte)) (q tail : List Byte) (e : JsonError) (err : ReadError)
    (hlines : ∀ l ∈ lines, passes unmarshal l = true)
    (hq : isLine q = true) (hdec : unmarshal q = .error e) :
    ∃ o se, sent (chatMessagesStreamHandle unmarshal Env.quiet
        ⟨lines.flatten ++ (dataPrefix ++ q) ++ tail, err⟩) =
        eventsOf unmarshal lines ++ [o] ∧
      o.Err = some se ∧ se = .unmarshallingEvent e ∧
      se.Error = ascii "error unmarshalling event: " ++ e.msg := by
  obtain ⟨f, h⟩ := handle_data_line unmarshal err lines q tail hlines hq
  refine ⟨{ Err := some (.unmarshallingEvent e) }, .unmarshallingEvent e, ?_, rfl, rfl, rfl⟩
  rw [h, hdec, sent_map_send]
  rfl

/-- C8 as amended, at a body whose only line is a malformed data line. -/
theorem C8_decode_failure_wraps_decoder_error_witness :
    (∀ l ∈ ([] : List (List Byte)), passes sampleUnmarshal l = true) ∧
    isLine pBad = true ∧ sampleUnmarshal pBad = .error errBad ∧
    ∃ o se, sent (chatMessagesStreamHandle sampleUnmarshal Env.quiet
        ⟨([] : List (List Byte)).flatten ++ (dataPrefix ++ pBad) ++ [], .EOF⟩) =
        eventsOf sampleUnmarshal [] ++ [o] ∧
      o.Err = some se ∧ se = .unmarshallingEvent errBad ∧
      se.Error = ascii "error unmarshalling event: " ++ errBad.msg :=
  ⟨by decide, by decide, by decide,
    C8_decode_failure_wraps_decoder_error sampleUnmarshal [] pBad [] errBad .EOF
      (by decide) (by decide) (by decide)⟩

/-- C8 as stated fails: for the body `data:{bad` with its line feed, the one
outcome sent is a failure whose text is the decoder's message after
`error unmarshalling event: `, and the raw payload does not occur in it. -/
theorem C8_counterexample :
    chatMessagesStreamHandle sampleUnmarshal Env.quiet ⟨dataPrefix ++ pBad, .EOF⟩ =
      [.send { Err := some (.unmarshallingEvent errBad) }, .closeChan, .closeBody] ∧
    (StreamError.unmarshallingEvent errBad).Error = ascii
      "error unmarshalling event: invalid character 'b' looking for beginning of object key string" ∧
    ¬ (pBad <:+: (StreamError.unmarshallingEvent errBad).Error) ∧
    ¬ (pBad.dropLast <:+: (StreamError.unmarshallingEvent errBad).Error) := by
  refine ⟨by decide, by decide, ?_, ?_⟩
  · intro h
    have hmem : newline ∈ (StreamError.unmarshallingEvent errBad).Error :=
      h.subset (by decide)
    revert hmem
    decide
  · intro h
    have hmem : 123 ∈ (StreamError.unmarshallingEvent errBad).Error :=
      h.subset (by decide)
    revert hmem
    decide

/-! ## Every run -/

/-- The outcomes received in any run of the loop: events, then at most one
terminal outcome. -/
theorem handleLoop_shape (unmarshal : Unmarshal) (env : Env) (err : ReadError) :
    ∀ (fuel iter k : Nat) (data : List Byte),
      ∃ evs term, sent (handleLoop unmarshal env err fuel iter k data) = evs ++ term ∧
        (∀ o ∈ evs, IsEvent o) ∧ term.length ≤ 1 ∧ ∀ o ∈ term, IsTerminal o := by
  intro fuel
  induction fuel with
  | zero => intro iter k data; exact ⟨[], [], by simp [handleLoop, sent], by simp, by simp, by simp⟩
  | succ f ih =>
    intro iter k data
    have hnone : ∃ evs term, sent deferred = evs ++ term ∧
        (∀ o ∈ evs, IsEvent o) ∧ term.length ≤ 1 ∧ ∀ o ∈ term, IsTerminal o :=
      ⟨[], [], by simp [deferred, sent], by simp, by simp, by simp⟩
    have hterm : ∀ o : ChatMessageStreamChannelResponse, IsTerminal o →
        ∃ evs term, sent (sendThen env k o deferred) = evs ++ term ∧
          (∀ o ∈ evs, IsEvent o) ∧ term.length ≤ 1 ∧ ∀ o ∈ term, IsTerminal o := by
      intro o ho
      by_cases hr : env.recv k = true
      · exact ⟨[], [o], by simp [sendThen, hr, deferred, sent], by simp, by simp,
          by simpa using ho⟩
      · exact ⟨[], [], by simp [sendThen, hr, sent], by simp, by simp, by simp⟩
    rw [handleLoop]
    by_cases hd : env.done iter = true
    · simpa [hd] using hnone
    · simp only [hd, Bool.false_eq_true, if_false]
      rcases hrb : readBytes newline data with ⟨line, _ | rest⟩
      · exact hterm _ (Or.inl (by simp))
      · simp only []
        by_cases hpre : hasPrefix line dataPrefix = true
        · simp only [hpre, Bool.not_true, Bool.false_eq_true, if_false]
          cases hu : unmarshal (trimPrefix line dataPrefix) with
          | error e => exact hterm _ (Or.inl (by simp))
          | ok resp =>
            simp only []
            by_cases h1 : resp.Event = "error"
            · simp only [h1, if_true]
              exact hterm _ (Or.inl (by simp))
            · by_cases h2 : resp.Event = "message_end"
              · simp only [h1, h2, if_true, if_false]
                exact hterm _ (Or.inr ⟨rfl, h2⟩)
              · simp only [h1, h2, if_false]
                by_cases hr : env.recv k = true
                · obtain ⟨evs, term, he, hevs, hlen, ht⟩ := ih (iter + 1) (k + 1) rest
                  refine ⟨{ toChatMessageStreamResponse := resp } :: evs, term, ?_, ?_,
                    hlen, ht⟩
                  · simp [sendThen, hr, sent, he]
                  · intro o ho
                    rcases List.mem_cons.1 ho with rfl | ho
                    · exact ⟨rfl, h1, h2⟩
                    · exact hevs o ho
                · exact ⟨[], [], by simp [sendThen, hr, sent], by simp, by simp, by simp⟩
        · simp only [hpre, Bool.not_false, if_true]
          simpa using ih (iter + 1) k rest

/-- C6: for every decoder, body, cancellation schedule and consumer, the
outcomes the handler has sent are zero or more successful events (`Err` nil,
tag neither `error` nor `message_end`) followed by at most one terminal
outcome, a failure or the `message_end` event; so every outcome but possibly
the last is such an event and nothing is sent after a terminal outcome. -/
theorem C6_events_then_at_most_one_terminal (unmarshal : Unmarshal) (env : Env)
    (body : Body) :
    ∃ evs term, sent (chatMessagesStreamHandle unmarshal env body) = evs ++ term ∧
      (∀ o ∈ evs, IsEvent o) ∧ term.length ≤ 1 ∧ ∀ o ∈ term, IsTerminal o :=
  handleLoop_shape unmarshal env body.err (body.data.length + 1) 0 0 body.data

/-- On data that ends, a run of the loop with fuel for it never runs out of
fuel: it reaches the deferred closes after sends that were all received, or a
send never received. A read that never returns is not among the bodies here. -/
theorem handleLoop_ends (unmarshal : Unmarshal) (env : Env) (err : ReadError) :
    ∀ (fuel iter k : Nat) (data : List Byte), data.length < fuel →
      ∃ outs : List ChatMessageStreamChannelResponse,
        (∀ j, j < outs.length → env.recv (k + j) = true) ∧
        (handleLoop unmarshal env err fuel iter k data =
            outs.map Effect.send ++ [.closeChan, .closeBody] ∨
          ∃ o, env.recv (k + outs.length) = false ∧
            handleLoop unmarshal env err fuel iter k data =
              outs.map Effect.send ++ [.blocked o]) := by
  intro fuel
  induction fuel with
  | zero => intro iter k data h; omega
  | succ f ih =>
    intro iter k data hfuel
    have hterm : ∀ o : ChatMessageStreamChannelResponse,
        ∃ outs : List ChatMessageStreamChannelResponse,
          (∀ j, j < outs.length → env.recv (k + j) = true) ∧
          (sendThen env k o deferred = outs.map Effect.send ++ [.closeChan, .closeBody] ∨
            ∃ o', env.recv (k + outs.length) = false ∧
              sendThen env k o deferred = outs.map Effect.send ++ [.blocked o']) := by
      intro o
      by_cases hr : env.recv k = true
      · refine ⟨[o], ?_, Or.inl (by simp [sendThen, hr, deferred])⟩
        intro j hj
        have : j = 0 := by simpa using hj
        simpa [this] using hr
      · exact ⟨[], by simp, Or.inr ⟨o, by simpa using hr, by simp [sendThen, hr]⟩⟩
    rw [handleLoop]
    by_cases hd : env.done iter = true
    · exact ⟨[], by simp, Or.inl (by simp [hd, deferred])⟩
    · simp only [hd, Bool.false_eq_true, if_false]
      rcases hrb : readBytes newline data with ⟨line, _ | rest⟩
      · exact hterm _
      · have hlen : rest.length < f := by
          have := readBytes_rest_length newline data rest (by rw [hrb])
          omega
        simp only []
        by_cases hpre : hasPrefix line dataPrefix = true
        · simp only [hpre, Bool.not_true, Bool.false_eq_true, if_false]
          cases hu : unmarshal (trimPrefix line dataPrefix) with
          | error e => exact hterm _
          | ok resp =>
            simp only []
            by_cases h1 : resp.Event = "error"
            · simp only [h1, if_true]
              exact hterm _
            · by_cases h2 : resp.Event = "message_end"
              · simp only [h1, h2, if_true, if_false]
                exact hterm _
              · simp only [h1, h2, if_false]
                by_cases hr : env.recv k = true
                · obtain ⟨outs, hall, hcase⟩ := ih (iter + 1) (k + 1) rest hlen
                  refine ⟨{ toChatMessageStreamResponse := resp } :: outs, ?_, ?_⟩
                  · intro j hj
                    rcases j with _ | j
                    · simpa using hr
                    · have := hall j (by simpa using hj)
                      rwa [show k + (j + 1) = k + 1 + j by omega]
                  · rcases hcase with h | ⟨o, hb, h⟩
                    · exact Or.inl (by simp [sendThen, hr, h])
                    · refine Or.inr ⟨o, ?_, by simp [sendThen, hr, h]⟩
                      rw [List.length_cons, show k + (outs.length + 1) =
                        k + 1 + outs.length by omega]
                      exact hb
                · exact ⟨[], by simp, Or.inr ⟨{ toChatMessageStreamResponse := resp },
                    by simpa using hr, by simp [sendThen, hr]⟩⟩
        · simp only [hpre, Bool.not_false, if_true]
          exact ih (iter + 1) k rest hlen

/-! ## A send the consumer never receives -/

/-- C9, as the code has it: cancellation is looked at only at loop boundaries,
and in every state where the handler waits for the consumer to accept an
outcome only the send is offered, not the wait on the cancellation signal.
After lines that are not terminal frames, with no cancellation seen up to the
boundary before the send, if the consumer does not receive the outcome then
the handler stays in that send, whatever the cancellation signal does from
then on, and closes neither the channel nor the body. This holds for the send
of a data line (event, `message_end`, error event or decode failure) and for
the send of a read failure. -/
theorem C9_pending_send_ignores_cancellation (unmarshal : Unmarshal) (env : Env)
    (err : ReadError) (lines : List (List Byte))
    (hlines : ∀ l ∈ lines, passes unmarshal l = true)
    (hdone : ∀ i, i < lines.length + 1 → env.done i = false)
    (hrecv : ∀ j, j < (eventsOf unmarshal lines).length → env.recv j = true)
    (hstall : env.recv (eventsOf unmarshal lines).length = false) :
    (∀ q tail : List Byte, isLine q = true →
      chatMessagesStreamHandle unmarshal env ⟨lines.flatten ++ (dataPrefix ++ q) ++ tail, err⟩ =
        (eventsOf unmarshal lines).map Effect.send ++
          [.blocked (match unmarshal q with
            | .error e => { Err := some (.unmarshallingEvent e) }
            | .ok resp =>
              if resp.Event = "error" then { Err := some (.streamingEvent q) }
              else { toChatMessageStreamResponse := resp })]) ∧
    (∀ part : List Byte, newline ∉ part →
      chatMessagesStreamHandle unmarshal env ⟨lines.flatten ++ part, err⟩ =
        (eventsOf unmarshal lines).map Effect.send ++
          [.blocked { Err := some (.readingLine err) }]) := by
  have hd : env.done lines.length = false := hdone lines.length (by omega)
  have hdone' : ∀ i, i < lines.length → env.done i = false :=
    fun i hi => hdone i (by omega)
  constructor
  · intro q tail hq
    obtain ⟨f, _, h⟩ := handle_lines unmarshal env err lines ((dataPrefix ++ q) ++ tail)
      hlines hdone' hrecv
    obtain ⟨p, hp, rfl⟩ := isLine_split q hq
    have hdn : newline ∉ dataPrefix := by decide
    have hdp : newline ∉ dataPrefix ++ p := by simp [hp, hdn]
    have hdata : lines.flatten ++ (dataPrefix ++ (p ++ [newline])) ++ tail =
        lines.flatten ++ ((dataPrefix ++ (p ++ [newline])) ++ tail) := by simp
    have hdata2 : (dataPrefix ++ (p ++ [newline])) ++ tail =
        (dataPrefix ++ p) ++ newline :: tail := by simp
    rw [hdata, h, hdata2, handleLoop_line unmarshal env err f _ _ _ tail hdp hd]
    have e1 : dataPrefix ++ p ++ [newline] = dataPrefix ++ (p ++ [newline]) := by simp
    rw [e1, hasPrefix_data, trimPrefix_data]
    simp only [Bool.not_true, Bool.false_eq_true, if_false]
    cases unmarshal (p ++ [newline]) with
    | error e => simp [sendThen, hstall]
    | ok resp =>
      by_cases h1 : resp.Event = "error"
      · simp [sendThen, hstall, h1]
      · by_cases h2 : resp.Event = "message_end"
        · simp [sendThen, hstall, h1, h2]
        · simp [sendThen, hstall, h1, h2]
  · intro part hpart
    obtain ⟨f, _, h⟩ := handle_lines unmarshal env err lines part hlines hdone' hrecv
    rw [h, handleLoop_readError unmarshal env err f _ _ part hpart hd]
    simp [sendThen, hstall]

/-- C9 as amended, at a consumer that receives the first event and nothing
more, with the context cancelled while the second send is pending. -/
theorem C9_pending_send_ignores_cancellation_witness :
    (∀ l ∈ [dataPrefix ++ pMessage], passes sampleUnmarshal l = true) ∧
    (∀ i, i < [dataPrefix ++ pMessage].length + 1 →
      (⟨fun i => decide (2 ≤ i), fun k => decide (k < 1)⟩ : Env).done i = false) ∧
    (∀ j, j < (eventsOf sampleUnmarshal [dataPrefix ++ pMessage]).length →
      (⟨fun i => decide (2 ≤ i), fun k => decide (k < 1)⟩ : Env).recv j = true) ∧
    (⟨fun i => decide (2 ≤ i), fun k => decide (k < 1)⟩ : Env).recv
      (eventsOf sampleUnmarshal [dataPrefix ++ pMessage]).length = false ∧
    isLine pEnd = true ∧
    chatMessagesStreamHandle sampleUnmarshal ⟨fun i => decide (2 ≤ i), fun k => decide (k < 1)⟩
        ⟨[dataPrefix ++ pMessage].flatten ++ (dataPrefix ++ pEnd) ++ [], .EOF⟩ =
      [.send { toChatMessageStreamResponse := evMessage },
        .blocked { toChatMessageStreamResponse := evEnd }] :=
  ⟨by decide, by decide, by decide, by decide, by decide,
    (C9_pending_send_ignores_cancellation sampleUnmarshal
      ⟨fun i => decide (2 ≤ i), fun k => decide (k < 1)⟩ .EOF [dataPrefix ++ pMessage]
      (by decide) (by decide) (by decide) (by decide)).1 pEnd [] (by decide)⟩

/-- C9 as stated fails: with a consumer that never receives and the context
cancelled from the first loop boundary after the send on, the handler stays in
the send of the first event; it closes neither the channel nor the body. -/
theorem C9_counterexample :
    chatMessagesStreamHandle sampleUnmarshal ⟨fun i => decide (1 ≤ i), fun _ => false⟩
        ⟨dataPrefix ++ pMessage ++ (dataPrefix ++ pEnd), .EOF⟩ =
      [.blocked { toChatMessageStreamResponse := evMessage }] ∧
    Effect.closeChan ∉ chatMessagesStreamHandle sampleUnmarshal
        ⟨fun i => decide (1 ≤ i), fun _ => false⟩
        ⟨dataPrefix ++ pMessage ++ (dataPrefix ++ pEnd), .EOF⟩ ∧
    Effect.closeBody ∉ chatMessagesStreamHandle sampleUnmarshal
        ⟨fun i => decide (1 ≤ i), fun _ => false⟩
        ⟨dataPrefix ++ pMessage ++ (dataPrefix ++ pEnd), .EOF⟩ := by
  refine ⟨by decide, by decide, by decide⟩

/-! ## Lines that are not data lines -/

/-- The loop does not depend on the fuel beyond what the data needs, nor on
where the schedule is read from, as long as the same answers come. -/
theorem handleLoop_congr (unmarshal : Unmarshal) (d d' : Nat → Bool) (r : Nat → Bool)
    (err : ReadError) :
    ∀ (f f' it it' k : Nat) (data : List Byte), data.length < f → data.length < f' →
      (∀ j, d (it + j) = d' (it' + j)) →
      handleLoop unmarshal ⟨d, r⟩ err f it k data =
        handleLoop unmarshal ⟨d', r⟩ err f' it' k data := by
  intro f
  induction f with
  | zero => intro f' it it' k data h; omega
  | succ f ih =>
    intro f' it it' k data hf hf' hd
    obtain ⟨g, rfl⟩ : ∃ g, f' = g + 1 := ⟨f' - 1, by omega⟩
    have hd0 : d it = d' it' := by simpa using hd 0
    have hd1 : ∀ j, d (it + 1 + j) = d' (it' + 1 + j) := by
      intro j
      have := hd (j + 1)
      rwa [show it + (j + 1) = it + 1 + j by omega,
        show it' + (j + 1) = it' + 1 + j by omega] at this
    rw [handleLoop, handleLoop]
    simp only [hd0]
    by_cases hc : d' it' = true
    · simp [hc]
    · simp only [hc, Bool.false_eq_true, if_false]
      rcases hrb : readBytes newline data with ⟨line, _ | rest⟩
      · rfl
      · have hlen : rest.length < data.length :=
          readBytes_rest_length newline data rest (by rw [hrb])
        have e1 := ih g (it + 1) (it' + 1) k rest (by omega) (by omega) hd1
        have e2 := ih g (it + 1) (it' + 1) (k + 1) rest (by omega) (by omega) hd1
        simp only [e1, e2, sendThen]

/-- A complete line that is not a data line, put after complete lines: the
loop runs as without it, the schedule being read one place further from the
inserted line on. -/
theorem handleLoop_insert (unmarshal : Unmarshal) (d d' : Nat → Bool) (r : Nat → Bool)
    (err : ReadError) (L post : List Byte) (hL : isLine L = true)
    (hLd : hasPrefix L dataPrefix = false) :
    ∀ (lines : List (List Byte)) (f f' it k : Nat),
      (∀ l ∈ lines, isLine l = true) →
      (lines.flatten ++ L ++ post).length < f' →
      (lines.flatten ++ post).length < f →
      (∀ j, j < lines.length → d' (it + j) = d (it + j)) →
      d' (it + lines.length) = false →
      (∀ j, d (it + lines.length + j) = d' (it + lines.length + 1 + j)) →
      handleLoop unmarshal ⟨d', r⟩ err f' it k (lines.flatten ++ L ++ post) =
        handleLoop unmarshal ⟨d, r⟩ err f it k (lines.flatten ++ post) := by
  intro lines
  induction lines with
  | nil =>
    intro f f' it k _ hf' hf _ hd0 hshift
    obtain ⟨p, hp, rfl⟩ := isLine_split L hL
    obtain ⟨g', rfl⟩ : ∃ g, f' = g + 1 := ⟨f' - 1, by omega⟩
    have hdata : ([] : List (List Byte)).flatten ++ (p ++ [newline]) ++ post =
        p ++ newline :: post := by simp
    have hlen : post.length < g' := by
      rw [hdata] at hf'
      simp at hf'
      omega
    rw [hdata, handleLoop_line unmarshal ⟨d', r⟩ err g' it k p post hp (by simpa using hd0)]
    simp only [hLd, Bool.not_false, if_true, List.flatten_nil, List.nil_append]
    apply handleLoop_congr unmarshal d' d r err g' f (it + 1) it k post hlen
      (by simpa using hf)
    intro j
    have := hshift j
    simp only [List.length_nil, Nat.add_zero] at this
    exact this.symm
  | cons l ls ih =>
    intro f f' it k hlines hf' hf hsame hd0 hshift
    have hls : ∀ x ∈ ls, isLine x = true := fun x hx => hlines x (by simp [hx])
    obtain ⟨p, hp, rfl⟩ := isLine_split l (hlines l (by simp))
    obtain ⟨g', rfl⟩ : ∃ g, f' = g + 1 := ⟨f' - 1, by omega⟩
    obtain ⟨g, rfl⟩ : ∃ g, f = g + 1 := ⟨f - 1, by omega⟩
    have hdata' : ((p ++ [newline]) :: ls).flatten ++ L ++ post =
        p ++ newline :: (ls.flatten ++ L ++ post) := by simp
    have hdata : ((p ++ [newline]) :: ls).flatten ++ post =
        p ++ newline :: (ls.flatten ++ post) := by simp
    rw [hdata'] at hf' ⊢
    rw [hdata] at hf ⊢
    have hg' : (ls.flatten ++ L ++ post).length < g' := by
      rw [List.length_append, List.length_cons] at hf'
      omega
    have hg : (ls.flatten ++ post).length < g := by
      rw [List.length_append, List.length_cons] at hf
      omega
    have h0 : d' it = d it := by simpa using hsame 0 (by simp)
    have hsame1 : ∀ j, j < ls.length → d' (it + 1 + j) = d (it + 1 + j) := by
      intro j hj
      have := hsame (j + 1) (by simp; omega)
      rwa [show it + (j + 1) = it + 1 + j by omega] at this
    have hd1 : d' (it + 1 + ls.length) = false := by
      rw [List.length_cons] at hd0
      rwa [show it + 1 + ls.length = it + (ls.length + 1) by omega]
    have hshift1 : ∀ j, d (it + 1 + ls.length + j) = d' (it + 1 + ls.length + 1 + j) := by
      intro j
      have := hshift j
      rw [List.length_cons] at this
      rwa [show it + 1 + ls.length = it + (ls.length + 1) by omega]
    by_cases hc : d it = true
    · rw [handleLoop_done unmarshal ⟨d', r⟩ err g' it k _ (by simpa [h0] using hc),
        handleLoop_done unmarshal ⟨d, r⟩ err g it k _ hc]
    · have hc' : d it = false := by simpa using hc
      rw [handleLoop_line unmarshal ⟨d', r⟩ err g' it k p _ hp (by simpa [h0] using hc'),
        handleLoop_line unmarshal ⟨d, r⟩ err g it k p _ hp hc']
      have e1 := ih g g' (it + 1) k hls hg' hg hsame1 hd1 hshift1
      have e2 := ih g g' (it + 1) (k + 1) hls hg' hg hsame1 hd1 hshift1
      simp only [e1, e2, sendThen]

/-- C5: a complete line `L` that does not begin with the bytes `data:` is
transparent. Put at a line boundary of any body (after the complete lines
`lines`, before `post`), it leaves the run of the handler unchanged, so the
outcomes sent are the same; `L` yields no outcome and does not stop the
stream. The cancellation signal is taken to be absent at the boundary before
`L` and read at the other boundaries as in the run without `L`; with no
cancellation at all both schedules are the same. -/
theorem C5_non_data_line_transparent (unmarshal : Unmarshal) (env : Env)
    (err : ReadError) (lines : List (List Byte)) (L post : List Byte)
    (hlines : ∀ l ∈ lines, isLine l = true)
    (hL : isLine L = true) (hLd : hasPrefix L dataPrefix = false)
    (hdone : env.done lines.length = false) :
    chatMessagesStreamHandle unmarshal env ⟨lines.flatten ++ L ++ post, err⟩ =
      chatMessagesStreamHandle unmarshal
        ⟨fun i => env.done (if i < lines.length then i else i + 1), env.recv⟩
        ⟨lines.flatten ++ post, err⟩ ∧
    ((∀ i, env.done i = false) →
      chatMessagesStreamHandle unmarshal env ⟨lines.flatten ++ L ++ post, err⟩ =
        chatMessagesStreamHandle unmarshal env ⟨lines.flatten ++ post, err⟩) := by
  have key : chatMessagesStreamHandle unmarshal env ⟨lines.flatten ++ L ++ post, err⟩ =
      chatMessagesStreamHandle unmarshal
        ⟨fun i => env.done (if i < lines.length then i else i + 1), env.recv⟩
        ⟨lines.flatten ++ post, err⟩ := by
    unfold chatMessagesStreamHandle
    apply handleLoop_insert unmarshal _ env.done env.recv err L post hL hLd lines _ _ 0 0
      hlines (by simp) (by simp)
    · intro j hj
      simp [hj]
    · simpa using hdone
    · intro j
      simp
      rw [show lines.length + 1 + j = lines.length + j + 1 by omega]
  refine ⟨key, ?_⟩
  intro hq
  rw [key]
  have henv : (⟨fun i => env.done (if i < lines.length then i else i + 1), env.recv⟩ : Env)
      = env := by
    cases env with
    | mk d r =>
      have : (fun i => d (if i < lines.length then i else i + 1)) = d := by
        funext i
        have h1 : d i = false := hq i
        have h2 : d (if i < lines.length then i else i + 1) = false := hq _
        rw [h1, h2]
      simp only [this]
  rw [henv]

/-- C5 at a body of a `message` line and a `message_end` line, with a line
put between them that holds a `message_end` payload after ` data:` with a
leading space. -/
theorem C5_non_data_line_transparent_witness :
    (∀ l ∈ [dataPrefix ++ pMessage], isLine l = true) ∧
    isLine (32 :: (dataPrefix ++ pEnd)) = true ∧
    hasPrefix (32 :: (dataPrefix ++ pEnd)) dataPrefix = false ∧
    Env.quiet.done [dataPrefix ++ pMessage].length = false ∧
    (chatMessagesStreamHandle sampleUnmarshal Env.quiet
        ⟨[dataPrefix ++ pMessage].flatten ++ (32 :: (dataPrefix ++ pEnd)) ++
          (dataPrefix ++ pEnd), .EOF⟩ =
      chatMessagesStreamHandle sampleUnmarshal
        ⟨fun i => Env.quiet.done (if i < [dataPrefix ++ pMessage].length then i else i + 1),
          Env.quiet.recv⟩
        ⟨[dataPrefix ++ pMessage].flatten ++ (dataPrefix ++ pEnd), .EOF⟩ ∧
    ((∀ i, Env.quiet.done i = false) →
      chatMessagesStreamHandle sampleUnmarshal Env.quiet
        ⟨[dataPrefix ++ pMessage].flatten ++ (32 :: (dataPrefix ++ pEnd)) ++
          (dataPrefix ++ pEnd), .EOF⟩ =
        chatMessagesStreamHandle sampleUnmarshal Env.quiet
          ⟨[dataPrefix ++ pMessage].flatten ++ (dataPrefix ++ pEnd), .EOF⟩)) :=
  ⟨by decide, by decide, by decide, by decide,
    C5_non_data_line_transparent sampleUnmarshal Env.quiet .EOF [dataPrefix ++ pMessage]
      (32 :: (dataPrefix ++ pEnd)) (dataPrefix ++ pEnd)
      (by decide) (by decide) (by decide) (by decide)⟩

end Dify
